import Mathlib

/-!
Verification of the reconciliation core of the `waldur_os_security_group`
Ansible module (file `waldur_os_security_group.py`).

Python rules are dictionaries mapping field names to values.  We embed a
dictionary as an association list of `FieldName × Value` pairs, read through a
first-occurrence lookup, and embed Python dictionary equality (`==`) as
extensional agreement of lookups (`dictEq`).  The field namespace is open:
besides the eight field names the module ever touches, `FieldName.other s`
stands for any further key a rule mapping may carry.
-/

/-- Keys of a rule mapping.  `other s` is any key besides the eight the
module touches. -/
inductive FieldName where
  | from_port
  | to_port
  | cidr
  | protocol
  | direction
  | description
  | ethertype
  | remote_group
  | other (name : String)
deriving DecidableEq

/-- Values stored in a rule mapping: strings and integers. -/
inductive Value where
  | s (v : String)
  | i (n : Int)
deriving DecidableEq

/-- A rule mapping (a Python dict), as an association list read through
first-occurrence lookup. -/
abbrev Rule := List (FieldName × Value)

/-- First-occurrence lookup, the reading of a Python dict access. -/
def lookupR : Rule → FieldName → Option Value
  | [], _ => none
  | p :: rest, k => if p.1 = k then some p.2 else lookupR rest k

/-- Python `k in rule`. -/
def hasKey (r : Rule) (k : FieldName) : Bool :=
  (lookupR r k).isSome

/-- Python `rule.pop(k)` (as the resulting dict; a no-op when the key is
absent, matching the guarded pops in the source). -/
def eraseKey (r : Rule) (k : FieldName) : Rule :=
  r.filter (fun p => decide (p.1 ≠ k))

/-- Python `rule[k] = v`. -/
def setKey : Rule → FieldName → Value → Rule
  | [], k, v => [(k, v)]
  | p :: rest, k, v => if p.1 = k then (k, v) :: rest else p :: setKey rest k v

/-- Python dict equality `==`: the two mappings agree on every key. -/
def dictEq (a b : Rule) : Bool :=
  a.all (fun p => decide (lookupR a p.1 = lookupR b p.1)) &&
  b.all (fun p => decide (lookupR a p.1 = lookupR b p.1))

/-- Python `str(v)`, used by the `%s` message formatting of the module. -/
def pyStr : Value → String
  | .s v => v
  | .i n => toString n

/-- Python `list.index` modulo the predicate: index of the first element
satisfying `p`, `none` when there is none (`ValueError` in the source). -/
def find_index (p : α → Bool) : List α → Option Nat
  | [] => none
  | a :: as => if p a then some 0 else (find_index p as).map (fun n => n + 1)

/-- Masking of one remaining pool entry, from the inner loop of
`compare_rules` (lines 279-287): keyed by the presence of `remote_group`
in the desired rule. -/
def mask_entry (local_rule : Rule) (r : Rule) : Rule :=
  if hasKey local_rule .remote_group then
    eraseKey (eraseKey r .cidr) .ethertype
  else
    eraseKey r .remote_group

/-- `compare_rules` (lines 272-296).  For each local rule in order: mask a
deep copy of the remaining remote pool, find the first masked entry equal
to the local rule, remove that position from the pool; `False` as soon as
a local rule has no match; at the end `True` iff the pool is empty. -/
def compare_rules : List Rule → List Rule → Bool
  | [], remote_rules => remote_rules.isEmpty
  | local_rule :: rest, remote_rules =>
    match find_index (fun r => dictEq local_rule r)
        (remote_rules.map (mask_entry local_rule)) with
    | none => false
    | some i => compare_rules rest (remote_rules.eraseIdx i)

/-- `compare_description` (lines 299-306): literal equality, else equal
truthiness (a Python string is truthy iff non-empty). -/
def compare_description (description_1 description_2 : String) : Bool :=
  if description_1 = description_2 then true
  else if decide (description_1 = "") = decide (description_2 = "") then true
  else false

/-- A remote security group record, with the fields the module reads:
`url` (remote-group resolution), `uuid` (delete), `description` and
`rules` (the present/present comparison). -/
structure SecGroup where
  url : String
  uuid : String
  description : String
  rules : List Rule
deriving DecidableEq

/-- The external collaborators consumed by the module, as response
oracles.  `get_security_group` may raise a client exception (`.error`,
with its message) or report the group as present/absent; the two tenant
resolution hops and the two address parsers of the Python `ipaddress`
library are likewise external. -/
structure Client where
  get_security_group : String → Value → Except String (Option SecGroup)
  get_marketplace_resource_scope : String → String
  get_scope_uuid : String → String
  parseIPv4 : Value → Except String Unit
  parseIPv6 : Value → Except String Unit

/-- Fatal outcomes of `send_request_to_waldur`: `module.fail_json`, a
raised `AnsibleError`, a propagated client exception, and the `TypeError`
of subscripting a `None` remote-group lookup result. -/
inductive ModuleError where
  | failJson (msg : String)
  | ansibleError (msg : String)
  | clientError (msg : String)
  | typeError
deriving DecidableEq

/-- The mutating collaborator calls the module can issue, with the
arguments the source forwards. -/
inductive Call where
  | create_security_group (project : Option String) (tenant name description : String)
      (rules : List Rule) (tags : Option (List String)) (wait : Bool)
      (interval timeout : Nat)
  | update_security_group_description (group : SecGroup) (description : String)
  | update_security_group_rules (group : SecGroup) (rules : List Rule)
  | delete_security_group (uuid : String)
deriving DecidableEq

/-- The module parameters `send_request_to_waldur` reads.  `tenant` and
`waldur_resource` use `""` for a missing/falsy value (Python truthiness
of `None` and `""` coincide); `description` is already the
`params.get('description') or ''` value. -/
structure Params where
  tenant : String
  waldur_resource : String
  project : Option String
  name : String
  description : String
  rules : List Rule
  state : String
  tags : Option (List String)
  wait : Bool
  interval : Nat
  timeout : Nat

/-- `get_tenant_uuid` (lines 309-313): fetch the marketplace resource,
read its `scope` URL, dereference it, read its `uuid`. -/
def get_tenant_uuid (client : Client) (waldur_resource_uuid : String) : String :=
  client.get_scope_uuid (client.get_marketplace_resource_scope waldur_resource_uuid)

/-- The target branch of the per-rule validation (lines 342-362): resolve
`remote_group` through the lookup collaborator, or parse `cidr` for the
rule's ethertype (defaulting `IPv4`), or fail when neither is present. -/
def validate_target (client : Client) (tenant : String) (rule : Rule) :
    Except ModuleError Rule :=
  match lookupR rule .remote_group with
  | some rg =>
    match client.get_security_group tenant rg with
    | .error e => .error (.clientError e)
    | .ok none => .error .typeError
    | .ok (some g) => .ok (setKey rule .remote_group (.s g.url))
  | none =>
    match lookupR rule .cidr with
    | some address =>
      match lookupR rule .ethertype with
      | none =>
        match client.parseIPv4 address with
        | .error e =>
          .error (.failJson ("Invalid IPv4 address " ++ pyStr address ++ ": " ++ e))
        | .ok _ => .ok (setKey rule .ethertype (.s "IPv4"))
      | some et =>
        if et = .s "IPv4" then
          match client.parseIPv4 address with
          | .error e =>
            .error (.failJson ("Invalid IPv4 address " ++ pyStr address ++ ": " ++ e))
          | .ok _ => .ok (setKey rule .ethertype (.s "IPv4"))
        else if et = .s "IPv6" then
          match client.parseIPv6 address with
          | .error e =>
            .error (.failJson ("Invalid IPv6 address " ++ pyStr address ++ ": " ++ e))
          | .ok _ => .ok rule
        else .error (.failJson ("Invalid ethertype: " ++ pyStr et))
    | none => .error (.failJson "Either cidr or remote_group must be specified.")

/-- The direction step of the per-rule validation (lines 364-371):
default `ingress`, reject anything besides `ingress`/`egress`. -/
def validate_direction (rule : Rule) : Except ModuleError Rule :=
  match lookupR rule .direction with
  | none => .ok (setKey rule .direction (.s "ingress"))
  | some d =>
    if d = .s "ingress" ∨ d = .s "egress" then .ok rule
    else
      .error (.failJson ("Invalid direction " ++ pyStr d ++
        " expected ingress or egress"))

/-- Validation and in-place normalization of one rule (lines 332-371):
required fields in order, the cidr/remote_group exclusivity check, the
target branch, then the direction step. -/
def validate_rule (client : Client) (tenant : String) (rule : Rule) :
    Except ModuleError Rule :=
  if ¬ hasKey rule .from_port then
    .error (.failJson "A rule must contain from_port parameter.")
  else if ¬ hasKey rule .to_port then
    .error (.failJson "A rule must contain to_port parameter.")
  else if ¬ hasKey rule .protocol then
    .error (.failJson "A rule must contain protocol parameter.")
  else if hasKey rule .cidr && hasKey rule .remote_group then
    .error (.failJson "Either cidr or remote_group must be specified, not both.")
  else
    match validate_target client tenant rule with
    | .error e => .error e
    | .ok r1 => validate_direction r1

/-- The whole validation loop `for rule in rules` (lines 332-371): rules
in order, first failure aborts, success yields the normalized rules the
source's in-place mutation leaves behind. -/
def validate_rules (client : Client) (tenant : String) :
    List Rule → Except ModuleError (List Rule)
  | [] => .ok []
  | r :: rs =>
    match validate_rule client tenant r with
    | .error e => .error e
    | .ok r1 =>
      match validate_rules client tenant rs with
      | .error e => .error e
      | .ok rs1 => .ok (r1 :: rs1)

/-- The remote-rule restriction of lines 378-395: keep exactly the eight
compared fields. -/
def comparedFields : List FieldName :=
  [.from_port, .to_port, .cidr, .protocol, .direction, .description,
   .ethertype, .remote_group]

/-- One entry of `rules_comp` (lines 378-395): the remote rule restricted
to the eight compared fields. -/
def restrictRule (r : Rule) : Rule :=
  r.filter (fun p => decide (p.1 ∈ comparedFields))

/-- `send_request_to_waldur` (lines 316-428), returning the Python return
value (or a fatal outcome) together with the list of mutating collaborator
calls issued, in order. -/
def send_request_to_waldur (client : Client) (p : Params) :
    Except ModuleError Bool × List Call :=
  if p.tenant = "" ∧ p.waldur_resource = "" then
    (.error (.ansibleError "Tenant or waldur_resource must be specified."), [])
  else
    let tenant := if p.tenant = "" then get_tenant_uuid client p.waldur_resource
      else p.tenant
    match validate_rules client tenant p.rules with
    | .error e => (.error e, [])
    | .ok rules =>
      match client.get_security_group tenant (.s p.name) with
      | .error e => (.error (.clientError e), [])
      | .ok (some security_group) =>
        if p.state = "present" then
          let rules_comp := security_group.rules.map restrictRule
          let dEq := compare_description security_group.description p.description
          let rEq := compare_rules rules rules_comp
          if dEq && rEq then (.ok false, [])
          else
            (.ok true,
              (if dEq then []
               else [Call.update_security_group_description security_group
                 p.description]) ++
              (if rEq then []
               else [Call.update_security_group_rules security_group rules]))
        else (.ok true, [Call.delete_security_group security_group.uuid])
      | .ok none =>
        if p.state = "present" then
          (.ok true,
            [Call.create_security_group p.project tenant p.name p.description
              rules p.tags p.wait p.interval p.timeout])
        else (.ok false, [])

/-- A small Python object heap for the mutation analysis of
`compare_rules`: list objects hold sequences of dict addresses, dict
objects hold rule mappings.  `next` is the allocation bound: every live
address is below it, fresh objects are allocated at it. -/
structure PyHeap where
  next : Nat
  lists : Nat → Option (List Nat)
  dicts : Nat → Option Rule

/-- Read a list object. -/
def PyHeap.readList (h : PyHeap) (a : Nat) : List Nat :=
  (h.lists a).getD []

/-- Read a dict object. -/
def PyHeap.readDict (h : PyHeap) (a : Nat) : Rule :=
  (h.dicts a).getD []

/-- Overwrite a list object in place (Python `list.pop(i)`). -/
def PyHeap.writeList (h : PyHeap) (a : Nat) (v : List Nat) : PyHeap :=
  ⟨h.next, fun x => if x = a then some v else h.lists x, h.dicts⟩

/-- Overwrite a dict object in place (Python `dict.pop(k)`). -/
def PyHeap.writeDict (h : PyHeap) (a : Nat) (v : Rule) : PyHeap :=
  ⟨h.next, h.lists, fun x => if x = a then some v else h.dicts x⟩

/-- Allocate a fresh list object (Python `list.copy()`). -/
def PyHeap.allocList (h : PyHeap) (v : List Nat) : Nat × PyHeap :=
  (h.next, ⟨h.next + 1, fun x => if x = h.next then some v else h.lists x, h.dicts⟩)

/-- Allocate a fresh dict object. -/
def PyHeap.allocDict (h : PyHeap) (v : Rule) : Nat × PyHeap :=
  (h.next, ⟨h.next + 1, h.lists, fun x => if x = h.next then some v else h.dicts x⟩)

/-- `copy.deepcopy(remote_rules)` (line 277), elementwise: fresh dict
objects holding copies of the pointed-to rules. -/
def deepcopy_dicts (h : PyHeap) : List Nat → List Nat × PyHeap
  | [] => ([], h)
  | a :: as =>
    let p := h.allocDict (h.readDict a)
    let q := deepcopy_dicts p.2 as
    (p.1 :: q.1, q.2)

/-- The masking loop (lines 279-287) on the deep copies, popping keys in
place. -/
def mask_dicts (h : PyHeap) (local_rule : Rule) : List Nat → PyHeap
  | [] => h
  | a :: as =>
    mask_dicts (h.writeDict a (mask_entry local_rule (h.readDict a))) local_rule as

/-- The main loop of `compare_rules` (lines 275-296) over the heap:
`pool` is the address of the working copy of the remote list. -/
def compare_rules_go_st (h : PyHeap) (locals : List Nat) (pool : Nat) :
    Bool × PyHeap :=
  match locals with
  | [] => (decide (h.readList pool = []), h)
  | la :: rest =>
    let local_rule := h.readDict la
    let cur := h.readList pool
    let tmp := deepcopy_dicts h cur
    let h2 := mask_dicts tmp.2 local_rule tmp.1
    match find_index (fun a => dictEq local_rule (h2.readDict a)) tmp.1 with
    | none => (false, h2)
    | some i => compare_rules_go_st (h2.writeList pool (cur.eraseIdx i)) rest pool

/-- `compare_rules` over the heap: the arguments are the addresses of the
caller's local and remote rule lists; line 273 copies the remote list
into a fresh working object before any removal. -/
def compare_rules_st (h : PyHeap) (local_addr remote_addr : Nat) :
    Bool × PyHeap :=
  let p := h.allocList (h.readList remote_addr)
  compare_rules_go_st p.2 (p.2.readList local_addr) p.1

/-- The matching relation the specification describes for `compare_rules`:
each desired rule in order takes the first masked pool entry equal to it,
which is removed from the pool by position, and at the end the pool is
empty. -/
inductive CompareSpec : List Rule → List Rule → Prop where
  | nil : CompareSpec [] []
  | cons (d : Rule) (ds pool : List Rule) (i : Nat) (m : Rule)
      (hm : (pool.map (mask_entry d))[i]? = some m)
      (hpm : dictEq d m = true)
      (hfirst : ∀ j, j < i → ∀ b, (pool.map (mask_entry d))[j]? = some b →
        dictEq d b = false)
      (hrest : CompareSpec ds (pool.eraseIdx i)) :
      CompareSpec (d :: ds) pool

/-- Rules in the shape left behind by a successful validation in which a
remote-group rule carries no ethertype: the three required fields,
direction filled in, and either (cidr with ethertype, no remote_group) or
(remote_group with neither cidr nor ethertype). -/
def normalized_rule (r : Rule) : Bool :=
  hasKey r .from_port && hasKey r .to_port && hasKey r .protocol &&
  hasKey r .direction &&
  ((hasKey r .cidr && hasKey r .ethertype && !hasKey r .remote_group) ||
   (hasKey r .remote_group && !hasKey r .cidr && !hasKey r .ethertype))

/-- A demonstration client: every security-group lookup resolves to the
same remote group and both address parsers accept everything. -/
def demoClient : Client :=
  ⟨fun _ _ => .ok (some ⟨"http://api/sg/1", "uuid-1", "", []⟩),
   fun s => s, fun s => s, fun _ => .ok (), fun _ => .ok ()⟩

/-- The output of a successful validation of a remote-group rule that also
carries a user-supplied ethertype: the remote-group branch never touches
`ethertype`, so it survives normalization. -/
def demoRgRule : Rule :=
  [(.from_port, .i 80), (.to_port, .i 80), (.protocol, .s "tcp"),
   (.remote_group, .s "http://api/sg/1"), (.ethertype, .s "IPv4"),
   (.direction, .s "ingress")]

/-- A normalized desired rule on the cidr branch. -/
def demoCidrRule : Rule :=
  [(.from_port, .i 80), (.to_port, .i 80), (.cidr, .s "0.0.0.0/0"),
   (.protocol, .s "tcp"), (.direction, .s "ingress"), (.ethertype, .s "IPv4")]

/-- A raw remote rule: the desired fields plus an extra remote-side key. -/
def demoRemoteRaw : Rule := demoCidrRule ++ [(.other "id", .i 7)]

/-- A client whose security-group lookups report absence and whose
parsers accept everything. -/
def absentClient : Client :=
  ⟨fun _ _ => .ok none, fun s => s, fun s => s, fun _ => .ok (), fun _ => .ok ()⟩

/-- Demonstration parameters: direct tenant, state present, no rules. -/
def demoParams : Params :=
  ⟨"tenant-1", "", none, "web", "", [], "present", none, true, 20, 600⟩

/-- The remote group the demonstration client reports. -/
def demoSecGroup : SecGroup := ⟨"http://api/sg/1", "uuid-1", "", []⟩

/-- A client whose security-group lookups always find `demoSecGroup`. -/
def presentClient : Client :=
  ⟨fun _ _ => .ok (some demoSecGroup), fun s => s, fun s => s,
   fun _ => .ok (), fun _ => .ok ()⟩

/-- Parameters whose first rule is missing `from_port`. -/
def badParams : Params :=
  ⟨"tenant-1", "", none, "web", "", [[(.protocol, .s "tcp")]], "present",
   none, true, 20, 600⟩

/-- A client whose security-group lookups all fail with a not-found
exception. -/
def notFoundClient : Client :=
  ⟨fun _ _ => .error "Security group web not found.", fun s => s, fun s => s,
   fun _ => .ok (), fun _ => .ok ()⟩

/-- Parameters whose single rule references the remote group `web`. -/
def rgParams : Params :=
  ⟨"tenant-1", "", none, "app", "",
   [[(.from_port, .i 80), (.to_port, .i 80), (.protocol, .s "tcp"),
     (.remote_group, .s "web")]],
   "present", none, true, 20, 600⟩

/-- A concrete heap: the local list at address 0 and the remote list at
address 1 both point at the rule dict stored at address 2. -/
def demoHeap : PyHeap :=
  ⟨3, fun a => if a = 0 then some [2] else if a = 1 then some [2] else none,
   fun a => if a = 2 then some [(FieldName.protocol, Value.s "tcp")] else none⟩

theorem find_index_eq_none {α : Type} (p : α → Bool) (xs : List α) :
    find_index p xs = none ↔ ∀ b ∈ xs, p b = false := by
  induction xs with
  | nil => simp [find_index]
  | cons a as ih =>
    by_cases hp : p a = true
    · simp [find_index, hp]
    · have hp' : p a = false := by simpa using hp
      simp [find_index, hp', ih]

theorem find_index_eq_some {α : Type} (p : α → Bool) (xs : List α) :
    ∀ i, find_index p xs = some i ↔
      ((∃ b, xs[i]? = some b ∧ p b = true) ∧
        ∀ j, j < i → ∀ c, xs[j]? = some c → p c = false) := by
  induction xs with
  | nil => intro i; simp [find_index]
  | cons a as ih =>
    intro i
    by_cases hp : p a = true
    · simp only [find_index, hp, if_true]
      constructor
      · intro h
        injection h with h
        subst h
        refine ⟨⟨a, by simp, hp⟩, ?_⟩
        intro j hj
        omega
      · rintro ⟨⟨b, hb, hpb⟩, hfirst⟩
        cases i with
        | zero => rfl
        | succ i1 =>
          have h0 := hfirst 0 (by omega) a (by simp)
          rw [hp] at h0
          exact absurd h0 (by simp)
    · have hp' : p a = false := by simpa using hp
      simp only [find_index, hp', if_false]
      cases i with
      | zero =>
        constructor
        · intro h
          rcases Option.map_eq_some'.mp h with ⟨i0, _, hi0⟩
          omega
        · rintro ⟨⟨b, hb, hpb⟩, _⟩
          simp only [List.getElem?_cons_zero, Option.some.injEq] at hb
          subst hb
          rw [hp'] at hpb
          exact absurd hpb (by simp)
      | succ i1 =>
        constructor
        · intro h
          rcases Option.map_eq_some'.mp h with ⟨i0, hfind, hi0⟩
          have hi : i0 = i1 := by omega
          rw [hi] at hfind
          rcases (ih i1).mp hfind with ⟨⟨b, hb, hpb⟩, hfirst⟩
          refine ⟨⟨b, by simpa using hb, hpb⟩, ?_⟩
          intro j hj c hc
          cases j with
          | zero =>
            simp only [List.getElem?_cons_zero, Option.some.injEq] at hc
            subst hc
            exact hp'
          | succ j1 =>
            simp only [List.getElem?_cons_succ] at hc
            exact hfirst j1 (by omega) c hc
        · rintro ⟨⟨b, hb, hpb⟩, hfirst⟩
          simp only [List.getElem?_cons_succ] at hb
          have : find_index p as = some i1 := by
            refine (ih i1).mpr ⟨⟨b, hb, hpb⟩, ?_⟩
            intro j hj c hc
            exact hfirst (j + 1) (by omega) c (by simpa using hc)
          simp [this]

theorem compare_rules_iff_spec :
    ∀ ds pool : List Rule, compare_rules ds pool = true ↔ CompareSpec ds pool := by
  intro ds
  induction ds with
  | nil =>
    intro pool
    simp only [compare_rules, List.isEmpty_iff]
    constructor
    · intro h
      subst h
      exact CompareSpec.nil
    · intro h
      cases h
      rfl
  | cons d ds ih =>
    intro pool
    simp only [compare_rules]
    cases hfi : find_index (fun r => dictEq d r) (pool.map (mask_entry d)) with
    | none =>
      simp only [Bool.false_eq_true, false_iff]
      intro hspec
      cases hspec with
      | cons _ _ _ i m hm hpm hfirst hrest =>
        have hall := (find_index_eq_none _ _).mp hfi
        have hmem : m ∈ pool.map (mask_entry d) := by
          exact List.getElem?_mem hm
        have := hall m hmem
        simp only at this
        rw [hpm] at this
        exact absurd this (by simp)
    | some i =>
      rw [ih]
      constructor
      · intro hrest
        rcases (find_index_eq_some _ _ i).mp hfi with ⟨⟨m, hm, hpm⟩, hfirst⟩
        exact CompareSpec.cons d ds pool i m hm (by simpa using hpm)
          (by intro j hj b hb; simpa using hfirst j hj b hb) hrest
      · intro hspec
        cases hspec with
        | cons _ _ _ i' m' hm' hpm' hfirst' hrest' =>
          have hfi' : find_index (fun r => dictEq d r)
              (pool.map (mask_entry d)) = some i' := by
            refine (find_index_eq_some _ _ i').mpr ⟨⟨m', hm', by simpa using hpm'⟩, ?_⟩
            intro j hj c hc
            simpa using hfirst' j hj c hc
          rw [hfi] at hfi'
          injection hfi' with hii
          rw [hii]
          exact hrest'

theorem dictEq_refl (r : Rule) : dictEq r r = true := by
  simp [dictEq, List.all_eq_true]

theorem eraseKey_of_hasKey_eq_false (r : Rule) (k : FieldName)
    (h : hasKey r k = false) : eraseKey r k = r := by
  induction r with
  | nil => rfl
  | cons p rest ih =>
    simp only [hasKey, lookupR] at h
    by_cases hp : p.1 = k
    · rw [if_pos hp] at h
      simp at h
    · rw [if_neg hp] at h
      simp only [eraseKey, List.filter_cons]
      rw [if_pos (by simpa using hp)]
      have := ih (by simpa [hasKey] using h)
      simp only [eraseKey] at this
      rw [this]

theorem mask_entry_self (r : Rule) (h : normalized_rule r = true) :
    mask_entry r r = r := by
  cases hrg : hasKey r .remote_group with
  | true =>
    cases hc : hasKey r .cidr with
    | true => simp [normalized_rule, hrg, hc] at h
    | false =>
      cases he : hasKey r .ethertype with
      | true => simp [normalized_rule, hrg, hc, he] at h
      | false =>
        simp only [mask_entry, hrg, if_true]
        rw [eraseKey_of_hasKey_eq_false r .cidr hc]
        exact eraseKey_of_hasKey_eq_false r .ethertype he
  | false =>
    simp [mask_entry, hrg, eraseKey_of_hasKey_eq_false r .remote_group hrg]

/-- C1: `compare_rules` returns true iff the desired rules, scanned in
order, each consume the first masked-equal entry of the remaining remote
pool (removal by position) and the pool ends empty; it is false as soon as
a desired rule has no match; in particular duplicate desired rules need
distinct remote entries: `[R, R]` against `[R]` is not equivalent. -/
theorem compare_rules_matches_matching_spec :
    (∀ ds pool : List Rule, compare_rules ds pool = true ↔ CompareSpec ds pool) ∧
    (∀ R : Rule, compare_rules [R, R] [R] = false) := by
  refine ⟨compare_rules_iff_spec, ?_⟩
  intro R
  by_cases h : dictEq R (mask_entry R R) = true
  · simp [compare_rules, find_index, h, List.eraseIdx]
  · have h' : dictEq R (mask_entry R R) = false := by simpa using h
    simp [compare_rules, find_index, h']

/-- C1 witness: the characterization instantiated at the empty rule sets. -/
theorem compare_rules_matches_matching_spec_witness :
    CompareSpec [] [] :=
  (compare_rules_matches_matching_spec.1 [] []).mp rfl

/-- C3: the masking of each pool entry is keyed by the desired rule's own
target kind: a desired rule carrying `remote_group` strips `cidr` and
`ethertype` from the pool entry, any other desired rule strips
`remote_group`; consequently a desired remote-group rule matches a remote
rule differing only in its `cidr`/`ethertype` values. -/
theorem mask_entry_keyed_by_desired_target :
    (∀ l r : Rule, hasKey l .remote_group = true →
      mask_entry l r = eraseKey (eraseKey r .cidr) .ethertype) ∧
    (∀ l r : Rule, hasKey l .remote_group = false →
      mask_entry l r = eraseKey r .remote_group) ∧
    (∀ d r : Rule, hasKey d .remote_group = true →
      dictEq d (eraseKey (eraseKey r .cidr) .ethertype) = true →
      compare_rules [d] [r] = true) := by
  refine ⟨?_, ?_, ?_⟩
  · intro l r h
    simp [mask_entry, h]
  · intro l r h
    simp [mask_entry, h]
  · intro d r hrg hd
    have hm : mask_entry d r = eraseKey (eraseKey r .cidr) .ethertype := by
      simp [mask_entry, hrg]
    simp [compare_rules, find_index, hm, hd, List.eraseIdx]

/-- C3 witness: a remote-group desired rule matches a remote rule that
additionally carries (arbitrary) `cidr` and `ethertype` values. -/
theorem mask_entry_keyed_by_desired_target_witness :
    compare_rules
      [[(FieldName.protocol, Value.s "tcp"), (FieldName.remote_group, Value.s "u")]]
      [[(FieldName.protocol, Value.s "tcp"), (FieldName.remote_group, Value.s "u"),
        (FieldName.cidr, Value.s "10.0.0.0/8"), (FieldName.ethertype, Value.s "IPv6")]]
      = true :=
  mask_entry_keyed_by_desired_target.2.2 _ _ (by decide) (by decide)

/-- C5: `compare_description` is true iff the strings are literally equal
or both non-empty, with the three sample verdicts of the specification. -/
theorem compare_description_characterization :
    (∀ a b : String,
      compare_description a b = true ↔ (a = b ∨ (a ≠ "" ∧ b ≠ ""))) ∧
    compare_description "a" "b" = true ∧
    compare_description "" "a" = false ∧
    compare_description "" "" = true := by
  refine ⟨?_, by decide, by decide, by decide⟩
  intro a b
  unfold compare_description
  by_cases hab : a = b
  · simp [hab]
  · rw [if_neg hab]
    by_cases ha : a = ""
    · by_cases hb : b = ""
      · exact absurd (ha.trans hb.symm) hab
      · subst ha
        simp [hb, hab]
    · by_cases hb : b = ""
      · simp [ha, hb, hab]
      · simp [ha, hb, hab]

/-- C7 (amended): `compare_rules A A` is true for every list of rules in
the normalized shape in which a remote-group rule carries no ethertype:
masking then fixes every rule, so each desired rule consumes its own copy. -/
theorem compare_rules_refl_of_normalized (A : List Rule)
    (h : ∀ r ∈ A, normalized_rule r = true) : compare_rules A A = true := by
  induction A with
  | nil => rfl
  | cons a rest ih =>
    have hmask : mask_entry a a = a := mask_entry_self a (h a (by simp))
    have hd : dictEq a (mask_entry a a) = true := by
      rw [hmask]
      exact dictEq_refl a
    simp only [compare_rules, List.map_cons, find_index, hd, if_true]
    simpa [List.eraseIdx] using ih (fun r hr => h r (by simp [hr]))

/-- C7 counterexample: a rule produced by successful validation (a
remote-group rule with a user-supplied ethertype) is not self-equivalent:
masking strips `ethertype` from the pool copy but not from the desired
side, so `compare_rules [r] [r]` is false. -/
theorem compare_rules_refl_fails_on_validated_rule :
    validate_rule demoClient "tenant-1"
      [(.from_port, .i 80), (.to_port, .i 80), (.protocol, .s "tcp"),
       (.remote_group, .s "web"), (.ethertype, .s "IPv4")] = .ok demoRgRule ∧
    compare_rules [demoRgRule] [demoRgRule] = false :=
  ⟨rfl, rfl⟩

/-- C7 witness: reflexivity on a normalized singleton. -/
theorem compare_rules_refl_of_normalized_witness :
    compare_rules
      [[(FieldName.from_port, Value.i 80), (FieldName.to_port, Value.i 80),
        (FieldName.protocol, Value.s "tcp"), (FieldName.cidr, Value.s "0.0.0.0/0"),
        (FieldName.ethertype, Value.s "IPv4"), (FieldName.direction, Value.s "ingress")]]
      [[(FieldName.from_port, Value.i 80), (FieldName.to_port, Value.i 80),
        (FieldName.protocol, Value.s "tcp"), (FieldName.cidr, Value.s "0.0.0.0/0"),
        (FieldName.ethertype, Value.s "IPv4"), (FieldName.direction, Value.s "ingress")]]
      = true :=
  compare_rules_refl_of_normalized _ (by decide)

theorem lookupR_restrictRule (r : Rule) (k : FieldName) :
    lookupR (restrictRule r) k =
      if k ∈ comparedFields then lookupR r k else none := by
  induction r with
  | nil => simp [restrictRule, lookupR]
  | cons p rest ih =>
    by_cases hp : p.1 ∈ comparedFields
    · by_cases hk : p.1 = k
      · subst hk
        simp [restrictRule, List.filter_cons, hp, lookupR]
      · simp only [restrictRule, List.filter_cons, decide_eq_true hp, if_true]
        simp only [lookupR, if_neg hk]
        simpa [restrictRule] using ih
    · by_cases hk : p.1 = k
      · subst hk
        simp only [restrictRule, List.filter_cons]
        rw [if_neg (by simpa using hp)]
        simp only [lookupR, if_pos rfl]
        rw [if_neg hp] at ih ⊢
        simpa [restrictRule] using ih
      · simp only [restrictRule, List.filter_cons]
        rw [if_neg (by simpa using hp)]
        simp only [lookupR, if_neg hk]
        simpa [restrictRule] using ih

theorem restrictRule_append_other (r : Rule) (k : String) (v : Value) :
    restrictRule (r ++ [(FieldName.other k, v)]) = restrictRule r := by
  simp [restrictRule, List.filter_append, comparedFields]

/-- C4 counterexample: the restriction to the eight compared fields is
applied to the remote rules, not to the desired rule.  Adding a field
outside the set to the desired rule flips the verdict from equivalent to
not equivalent, so fields of a desired rule outside the set do affect the
outcome. -/
theorem desired_rule_extra_field_changes_verdict :
    compare_rules [demoCidrRule] ([demoRemoteRaw].map restrictRule) = true ∧
    compare_rules [demoCidrRule ++ [(.other "junk", .s "x")]]
      ([demoRemoteRaw].map restrictRule) = false :=
  ⟨rfl, rfl⟩

/-- C4 (amended): it is each remote pool entry that is restricted to the
field set {from_port, to_port, cidr, protocol, direction, description,
ethertype, remote_group} before masking and comparison — the restriction
keeps exactly those keys, and fields of a remote rule outside the set
never affect the equivalence verdict. -/
theorem remote_rules_restricted_to_compared_fields :
    (∀ r : Rule, ∀ k : FieldName, lookupR (restrictRule r) k =
      if k ∈ comparedFields then lookupR r k else none) ∧
    (∀ ds raws : List Rule, ∀ k : String, ∀ v : Value,
      compare_rules ds
        ((raws.map (fun r => r ++ [(FieldName.other k, v)])).map restrictRule) =
      compare_rules ds (raws.map restrictRule)) := by
  refine ⟨lookupR_restrictRule, ?_⟩
  intro ds raws k v
  have hmap : (raws.map (fun r => r ++ [(FieldName.other k, v)])).map restrictRule =
      raws.map restrictRule := by
    rw [List.map_map]
    exact List.map_congr_left (fun r _ => restrictRule_append_other r k v)
  rw [hmap]

/-- C2: the presence table of the reconciliation controller, given a
directly supplied tenant, valid desired rules and succeeding collaborator
calls: absent/absent issues nothing and is unchanged, absent/present
issues exactly one delete keyed by the group's uuid, present/absent
issues exactly one create forwarding all parameters and the validated
rules, present/present with equivalent description and rules issues
nothing and is unchanged. -/
theorem send_request_presence_table (client : Client) (p : Params)
    (rules : List Rule) (ht : p.tenant ≠ "")
    (hv : validate_rules client p.tenant p.rules = .ok rules) :
    (p.state = "absent" →
      client.get_security_group p.tenant (.s p.name) = .ok none →
      send_request_to_waldur client p = (.ok false, [])) ∧
    (∀ g : SecGroup, p.state = "absent" →
      client.get_security_group p.tenant (.s p.name) = .ok (some g) →
      send_request_to_waldur client p =
        (.ok true, [Call.delete_security_group g.uuid])) ∧
    (p.state = "present" →
      client.get_security_group p.tenant (.s p.name) = .ok none →
      send_request_to_waldur client p =
        (.ok true, [Call.create_security_group p.project p.tenant p.name
          p.description rules p.tags p.wait p.interval p.timeout])) ∧
    (∀ g : SecGroup, p.state = "present" →
      client.get_security_group p.tenant (.s p.name) = .ok (some g) →
      compare_description g.description p.description = true →
      compare_rules rules (g.rules.map restrictRule) = true →
      send_request_to_waldur client p = (.ok false, [])) := by
  have hne : ¬(("absent" : String) = "present") := by decide
  refine ⟨?_, ?_, ?_, ?_⟩
  · intro hs hf
    simp [send_request_to_waldur, ht, hv, hf, hs, hne]
  · intro g hs hf
    simp [send_request_to_waldur, ht, hv, hf, hs, hne]
  · intro hs hf
    simp [send_request_to_waldur, ht, hv, hf, hs]
  · intro g hs hf hd hr
    simp [send_request_to_waldur, ht, hv, hf, hs, hd, hr]

/-- C2 witness: the present/absent row instantiated — exactly one create
call, changed true. -/
theorem send_request_presence_table_witness :
    send_request_to_waldur absentClient demoParams =
      (.ok true, [Call.create_security_group none "tenant-1" "web" "" [] none
        true 20 600]) :=
  (send_request_presence_table absentClient demoParams [] (by decide)
    rfl).2.2.1 rfl rfl

/-- C6: in the present/present case, the description update call is issued
iff `compare_description` says unequal, the rules update call is issued
iff `compare_rules` says unequal, the two are independent, and changed is
true iff at least one fired. -/
theorem send_request_update_calls_independent (client : Client) (p : Params)
    (rules : List Rule) (g : SecGroup) (ht : p.tenant ≠ "")
    (hv : validate_rules client p.tenant p.rules = .ok rules)
    (hs : p.state = "present")
    (hf : client.get_security_group p.tenant (.s p.name) = .ok (some g)) :
    send_request_to_waldur client p =
      (.ok (!(compare_description g.description p.description &&
              compare_rules rules (g.rules.map restrictRule))),
       (if compare_description g.description p.description then []
        else [Call.update_security_group_description g p.description]) ++
       (if compare_rules rules (g.rules.map restrictRule) then []
        else [Call.update_security_group_rules g rules])) := by
  cases hd : compare_description g.description p.description <;>
    cases hr : compare_rules rules (g.rules.map restrictRule) <;>
    simp [send_request_to_waldur, ht, hv, hf, hs, hd, hr]

/-- C6 witness: equivalent description and rules — no update call,
changed false. -/
theorem send_request_update_calls_independent_witness :
    send_request_to_waldur presentClient demoParams = (.ok false, []) :=
  send_request_update_calls_independent presentClient demoParams [] demoSecGroup
    (by decide) rfl rfl rfl

theorem validate_rules_error_iff (client : Client) (tenant : String)
    (e : ModuleError) :
    ∀ rs : List Rule, validate_rules client tenant rs = .error e ↔
      ∃ i : Nat,
        (∃ r, rs[i]? = some r ∧ validate_rule client tenant r = .error e) ∧
        ∀ j : Nat, j < i → ∀ r1, rs[j]? = some r1 →
          ∃ r2, validate_rule client tenant r1 = .ok r2 := by
  intro rs
  induction rs with
  | nil => simp [validate_rules]
  | cons r rest ih =>
    cases hvr : validate_rule client tenant r with
    | error e1 =>
      simp only [validate_rules, hvr]
      constructor
      · intro h
        injection h with h
        subst h
        refine ⟨0, ⟨r, by simp, hvr⟩, ?_⟩
        intro j hj
        omega
      · rintro ⟨i, ⟨r2, hr2, he2⟩, hprev⟩
        cases i with
        | zero =>
          simp only [List.getElem?_cons_zero, Option.some.injEq] at hr2
          subst hr2
          rw [hvr] at he2
          injection he2 with he
          rw [he]
        | succ i1 =>
          rcases hprev 0 (by omega) r (by simp) with ⟨r3, hok⟩
          rw [hvr] at hok
          exact absurd hok (by simp)
    | ok r1 =>
      simp only [validate_rules, hvr]
      cases hrest : validate_rules client tenant rest with
      | error e2 =>
        constructor
        · intro h
          injection h with h
          subst h
          rcases ih.mp hrest with ⟨i, ⟨r2, hr2, he2⟩, hprev⟩
          refine ⟨i + 1, ⟨r2, by simpa using hr2, he2⟩, ?_⟩
          intro j hj r3 hr3
          cases j with
          | zero =>
            simp only [List.getElem?_cons_zero, Option.some.injEq] at hr3
            subst hr3
            exact ⟨r1, hvr⟩
          | succ j1 =>
            exact hprev j1 (by omega) r3 (by simpa using hr3)
        · rintro ⟨i, ⟨r2, hr2, he2⟩, hprev⟩
          cases i with
          | zero =>
            simp only [List.getElem?_cons_zero, Option.some.injEq] at hr2
            subst hr2
            rw [hvr] at he2
            exact absurd he2 (by simp)
          | succ i1 =>
            have hr : validate_rules client tenant rest = .error e := by
              refine ih.mpr ⟨i1, ⟨r2, by simpa using hr2, he2⟩, ?_⟩
              intro j hj r3 hr3
              exact hprev (j + 1) (by omega) r3 (by simpa using hr3)
            rw [hrest] at hr
            exact hr
      | ok rs1 =>
        constructor
        · intro h
          exact absurd h (by simp)
        · rintro ⟨i, ⟨r2, hr2, he2⟩, hprev⟩
          cases i with
          | zero =>
            simp only [List.getElem?_cons_zero, Option.some.injEq] at hr2
            subst hr2
            rw [hvr] at he2
            exact absurd he2 (by simp)
          | succ i1 =>
            have hr : validate_rules client tenant rest = .error e := by
              refine ih.mpr ⟨i1, ⟨r2, by simpa using hr2, he2⟩, ?_⟩
              intro j hj r3 hr3
              exact hprev (j + 1) (by omega) r3 (by simpa using hr3)
            rw [hrest] at hr
            exact absurd hr (by simp)

theorem send_request_of_validation_error (client : Client) (p : Params)
    (e : ModuleError) (ht : p.tenant ≠ "")
    (hv : validate_rules client p.tenant p.rules = .error e) :
    send_request_to_waldur client p = (.error e, []) := by
  simp [send_request_to_waldur, ht, hv]

/-- C8: every validation failure — a missing required field (any of
from_port, to_port, protocol), conflicting target, missing target,
invalid address on each parse branch (ethertype absent, explicit IPv4,
and IPv6, each with the offending value and the parse error in the
message), invalid ethertype, invalid direction — is raised for the first
offending rule in order, aborts the whole run, and is raised with the
mutating-call trace still empty. -/
theorem validation_error_first_offender_no_mutation (client : Client)
    (p : Params) :
    (∀ e : ModuleError, p.tenant ≠ "" →
      validate_rules client p.tenant p.rules = .error e →
      send_request_to_waldur client p = (.error e, [])) ∧
    (∀ tenant : String, ∀ e : ModuleError, ∀ rs : List Rule,
      validate_rules client tenant rs = .error e ↔
        ∃ i : Nat,
          (∃ r, rs[i]? = some r ∧ validate_rule client tenant r = .error e) ∧
          ∀ j : Nat, j < i → ∀ r1, rs[j]? = some r1 →
            ∃ r2, validate_rule client tenant r1 = .ok r2) ∧
    (∀ tenant rule, hasKey rule .from_port = false →
      validate_rule client tenant rule =
        .error (.failJson "A rule must contain from_port parameter.")) ∧
    (∀ tenant rule, hasKey rule .from_port = true →
      hasKey rule .to_port = false →
      validate_rule client tenant rule =
        .error (.failJson "A rule must contain to_port parameter.")) ∧
    (∀ tenant rule, hasKey rule .from_port = true →
      hasKey rule .to_port = true → hasKey rule .protocol = false →
      validate_rule client tenant rule =
        .error (.failJson "A rule must contain protocol parameter.")) ∧
    (∀ tenant rule, hasKey rule .from_port = true →
      hasKey rule .to_port = true → hasKey rule .protocol = true →
      hasKey rule .cidr = true → hasKey rule .remote_group = true →
      validate_rule client tenant rule =
        .error (.failJson
          "Either cidr or remote_group must be specified, not both.")) ∧
    (∀ tenant rule, hasKey rule .from_port = true →
      hasKey rule .to_port = true → hasKey rule .protocol = true →
      lookupR rule .cidr = none → lookupR rule .remote_group = none →
      validate_rule client tenant rule =
        .error (.failJson "Either cidr or remote_group must be specified.")) ∧
    (∀ tenant rule, ∀ a : Value, ∀ msg : String,
      hasKey rule .from_port = true → hasKey rule .to_port = true →
      hasKey rule .protocol = true → lookupR rule .remote_group = none →
      lookupR rule .cidr = some a → lookupR rule .ethertype = none →
      client.parseIPv4 a = .error msg →
      validate_rule client tenant rule =
        .error (.failJson
          ("Invalid IPv4 address " ++ pyStr a ++ ": " ++ msg))) ∧
    (∀ tenant rule, ∀ a : Value, ∀ msg : String,
      hasKey rule .from_port = true → hasKey rule .to_port = true →
      hasKey rule .protocol = true → lookupR rule .remote_group = none →
      lookupR rule .cidr = some a → lookupR rule .ethertype = some (.s "IPv4") →
      client.parseIPv4 a = .error msg →
      validate_rule client tenant rule =
        .error (.failJson
          ("Invalid IPv4 address " ++ pyStr a ++ ": " ++ msg))) ∧
    (∀ tenant rule, ∀ a : Value, ∀ msg : String,
      hasKey rule .from_port = true → hasKey rule .to_port = true →
      hasKey rule .protocol = true → lookupR rule .remote_group = none →
      lookupR rule .cidr = some a → lookupR rule .ethertype = some (.s "IPv6") →
      client.parseIPv6 a = .error msg →
      validate_rule client tenant rule =
        .error (.failJson
          ("Invalid IPv6 address " ++ pyStr a ++ ": " ++ msg))) ∧
    (∀ tenant rule, ∀ a et : Value,
      hasKey rule .from_port = true → hasKey rule .to_port = true →
      hasKey rule .protocol = true → lookupR rule .remote_group = none →
      lookupR rule .cidr = some a → lookupR rule .ethertype = some et →
      et ≠ .s "IPv4" → et ≠ .s "IPv6" →
      validate_rule client tenant rule =
        .error (.failJson ("Invalid ethertype: " ++ pyStr et))) ∧
    (∀ tenant rule r1, ∀ d : Value,
      hasKey rule .from_port = true → hasKey rule .to_port = true →
      hasKey rule .protocol = true →
      (hasKey rule .cidr && hasKey rule .remote_group) = false →
      validate_target client tenant rule = .ok r1 →
      lookupR r1 .direction = some d → d ≠ .s "ingress" → d ≠ .s "egress" →
      validate_rule client tenant rule =
        .error (.failJson ("Invalid direction " ++ pyStr d ++
          " expected ingress or egress"))) := by
  refine ⟨send_request_of_validation_error client p,
    fun tenant e rs => validate_rules_error_iff client tenant e rs,
    ?_, ?_, ?_, ?_, ?_, ?_, ?_, ?_, ?_, ?_⟩
  · intro tenant rule h
    simp [validate_rule, h]
  · intro tenant rule h1 h2
    simp [validate_rule, h1, h2]
  · intro tenant rule h1 h2 h3
    simp [validate_rule, h1, h2, h3]
  · intro tenant rule h1 h2 h3 hc hrg
    simp [validate_rule, h1, h2, h3, hc, hrg]
  · intro tenant rule h1 h2 h3 hc hrg
    have h1' : lookupR rule .from_port ≠ none := by
      simpa [hasKey, Option.isSome_iff_ne_none] using h1
    have h2' : lookupR rule .to_port ≠ none := by
      simpa [hasKey, Option.isSome_iff_ne_none] using h2
    have h3' : lookupR rule .protocol ≠ none := by
      simpa [hasKey, Option.isSome_iff_ne_none] using h3
    simp [validate_rule, validate_target, h1', h2', h3', hasKey, hc, hrg]
  · intro tenant rule a msg h1 h2 h3 hrg hc he hparse
    have h1' : lookupR rule .from_port ≠ none := by
      simpa [hasKey, Option.isSome_iff_ne_none] using h1
    have h2' : lookupR rule .to_port ≠ none := by
      simpa [hasKey, Option.isSome_iff_ne_none] using h2
    have h3' : lookupR rule .protocol ≠ none := by
      simpa [hasKey, Option.isSome_iff_ne_none] using h3
    simp [validate_rule, validate_target, h1', h2', h3', hasKey, hrg, hc, he,
      hparse]
  · intro tenant rule a msg h1 h2 h3 hrg hc he hparse
    have h1' : lookupR rule .from_port ≠ none := by
      simpa [hasKey, Option.isSome_iff_ne_none] using h1
    have h2' : lookupR rule .to_port ≠ none := by
      simpa [hasKey, Option.isSome_iff_ne_none] using h2
    have h3' : lookupR rule .protocol ≠ none := by
      simpa [hasKey, Option.isSome_iff_ne_none] using h3
    simp [validate_rule, validate_target, h1', h2', h3', hasKey, hrg, hc, he,
      hparse]
  · intro tenant rule a msg h1 h2 h3 hrg hc he hparse
    have h1' : lookupR rule .from_port ≠ none := by
      simpa [hasKey, Option.isSome_iff_ne_none] using h1
    have h2' : lookupR rule .to_port ≠ none := by
      simpa [hasKey, Option.isSome_iff_ne_none] using h2
    have h3' : lookupR rule .protocol ≠ none := by
      simpa [hasKey, Option.isSome_iff_ne_none] using h3
    have hne : (Value.s "IPv6") ≠ Value.s "IPv4" := by decide
    simp [validate_rule, validate_target, h1', h2', h3', hasKey, hrg, hc, he,
      hne, hparse]
  · intro tenant rule a et h1 h2 h3 hrg hc he hne4 hne6
    have h1' : lookupR rule .from_port ≠ none := by
      simpa [hasKey, Option.isSome_iff_ne_none] using h1
    have h2' : lookupR rule .to_port ≠ none := by
      simpa [hasKey, Option.isSome_iff_ne_none] using h2
    have h3' : lookupR rule .protocol ≠ none := by
      simpa [hasKey, Option.isSome_iff_ne_none] using h3
    simp [validate_rule, validate_target, h1', h2', h3', hasKey, hrg, hc, he,
      hne4, hne6]
  · intro tenant rule r1 d h1 h2 h3 hnb hvt hd hd1 hd2
    simp [validate_rule, validate_direction, h1, h2, h3, hnb, hvt, hd,
      hd1, hd2]

/-- C8 witness: a rule missing `from_port` aborts the run with the
missing-field failure and an empty mutating-call trace. -/
theorem validation_error_first_offender_no_mutation_witness :
    send_request_to_waldur absentClient badParams =
      (.error (.failJson "A rule must contain from_port parameter."), []) :=
  (validation_error_first_offender_no_mutation absentClient badParams).1 _
    (by decide) rfl

/-- C9: when the lookup collaborator cannot resolve a rule's
`remote_group` and fails (per the collaborator contract, with its
not-found message), the validation of that rule fails with the propagated
resolution error, and a run whose validation fails that way aborts with
the same error and an empty mutating-call trace. -/
theorem unresolved_remote_group_aborts (client : Client) (p : Params) :
    (∀ tenant : String, ∀ rule : Rule, ∀ rg : Value, ∀ e : String,
      hasKey rule .from_port = true → hasKey rule .to_port = true →
      hasKey rule .protocol = true → hasKey rule .cidr = false →
      lookupR rule .remote_group = some rg →
      client.get_security_group tenant rg = .error e →
      validate_rule client tenant rule = .error (.clientError e)) ∧
    (∀ e : String, p.tenant ≠ "" →
      validate_rules client p.tenant p.rules = .error (.clientError e) →
      send_request_to_waldur client p = (.error (.clientError e), [])) := by
  refine ⟨?_, fun e => send_request_of_validation_error client p (.clientError e)⟩
  intro tenant rule rg e h1 h2 h3 hc hrg hlookup
  have h1' : lookupR rule .from_port ≠ none := by
    simpa [hasKey, Option.isSome_iff_ne_none] using h1
  have h2' : lookupR rule .to_port ≠ none := by
    simpa [hasKey, Option.isSome_iff_ne_none] using h2
  have h3' : lookupR rule .protocol ≠ none := by
    simpa [hasKey, Option.isSome_iff_ne_none] using h3
  have hc' : lookupR rule .cidr = none := by
    cases hcv : lookupR rule .cidr with
    | none => rfl
    | some v =>
      rw [hasKey, hcv] at hc
      simp at hc
  simp [validate_rule, validate_target, h1', h2', h3', hasKey, hc', hrg,
    hlookup]

/-- C9 witness: the unresolved remote group aborts the run with the
propagated failure and no mutating call. -/
theorem unresolved_remote_group_aborts_witness :
    send_request_to_waldur notFoundClient rgParams =
      (.error (.clientError "Security group web not found."), []) :=
  (unresolved_remote_group_aborts notFoundClient rgParams).2 _ (by decide) rfl

theorem deepcopy_dicts_lists (h : PyHeap) (as : List Nat) :
    ∀ x : Nat, (deepcopy_dicts h as).2.lists x = h.lists x := by
  induction as generalizing h with
  | nil => intro x; rfl
  | cons a rest ih =>
    intro x
    simp only [deepcopy_dicts, PyHeap.allocDict]
    exact ih _ x

theorem deepcopy_dicts_next_le (h : PyHeap) (as : List Nat) :
    h.next ≤ (deepcopy_dicts h as).2.next := by
  induction as generalizing h with
  | nil => exact Nat.le_refl _
  | cons a rest ih =>
    simp only [deepcopy_dicts, PyHeap.allocDict]
    exact Nat.le_trans (Nat.le_succ h.next)
      (ih ⟨h.next + 1, h.lists, fun x => if x = h.next then
        some (h.readDict a) else h.dicts x⟩)

theorem deepcopy_dicts_dicts_lt (h : PyHeap) (as : List Nat) :
    ∀ x : Nat, x < h.next → (deepcopy_dicts h as).2.dicts x = h.dicts x := by
  induction as generalizing h with
  | nil => intro x _; rfl
  | cons a rest ih =>
    intro x hx
    simp only [deepcopy_dicts, PyHeap.allocDict]
    have step := ih ⟨h.next + 1, h.lists, fun y => if y = h.next then
      some (h.readDict a) else h.dicts y⟩ x (Nat.lt_trans hx (Nat.lt_succ_self _))
    rw [step]
    exact if_neg (by omega)

theorem deepcopy_dicts_addrs_ge (h : PyHeap) (as : List Nat) :
    ∀ a1 ∈ (deepcopy_dicts h as).1, h.next ≤ a1 := by
  induction as generalizing h with
  | nil =>
    intro a1 ha1
    simp [deepcopy_dicts] at ha1
  | cons a rest ih =>
    intro a1 ha1
    simp only [deepcopy_dicts, PyHeap.allocDict, List.mem_cons] at ha1
    rcases ha1 with ha1 | ha1
    · omega
    · exact Nat.le_trans (Nat.le_succ h.next)
        (ih ⟨h.next + 1, h.lists, fun y => if y = h.next then
          some (h.readDict a) else h.dicts y⟩ a1 ha1)

theorem mask_dicts_next (h : PyHeap) (l : Rule) (as : List Nat) :
    (mask_dicts h l as).next = h.next := by
  induction as generalizing h with
  | nil => rfl
  | cons a rest ih =>
    simp only [mask_dicts]
    exact ih _

theorem mask_dicts_lists (h : PyHeap) (l : Rule) (as : List Nat) :
    ∀ x : Nat, (mask_dicts h l as).lists x = h.lists x := by
  induction as generalizing h with
  | nil => intro x; rfl
  | cons a rest ih =>
    intro x
    simp only [mask_dicts]
    exact ih _ x

theorem mask_dicts_dicts_lt (h : PyHeap) (l : Rule) (as : List Nat)
    (N : Nat) (has1 : ∀ a ∈ as, N ≤ a) :
    ∀ x : Nat, x < N → (mask_dicts h l as).dicts x = h.dicts x := by
  induction as generalizing h with
  | nil => intro x _; rfl
  | cons a rest ih =>
    intro x hx
    have ha : N ≤ a := has1 a (by simp)
    simp only [mask_dicts]
    have step := ih (h.writeDict a (mask_entry l (h.readDict a)))
      (fun a1 h1 => has1 a1 (by simp [h1])) x hx
    rw [step]
    simp only [PyHeap.writeDict]
    exact if_neg (by omega)

theorem compare_rules_go_st_frame (N : Nat) :
    ∀ (locals : List Nat) (h : PyHeap) (pool : Nat),
      N ≤ h.next → N ≤ pool →
      N ≤ (compare_rules_go_st h locals pool).2.next ∧
      ∀ x : Nat, x < N →
        (compare_rules_go_st h locals pool).2.lists x = h.lists x ∧
        (compare_rules_go_st h locals pool).2.dicts x = h.dicts x := by
  intro locals
  induction locals with
  | nil =>
    intro h pool hN _
    exact ⟨hN, fun x _ => ⟨rfl, rfl⟩⟩
  | cons la rest ih =>
    intro h pool hN hpool
    simp only [compare_rules_go_st]
    set lr := h.readDict la with hlr
    set cur := h.readList pool with hcur
    set tmp := deepcopy_dicts h cur with htmp
    set h2 := mask_dicts tmp.2 lr tmp.1 with hh2
    have htmpnext : h.next ≤ tmp.2.next := by
      rw [htmp]
      exact deepcopy_dicts_next_le h cur
    have h2next : h2.next = tmp.2.next := by
      rw [hh2]
      exact mask_dicts_next tmp.2 lr tmp.1
    have hNh2 : N ≤ h2.next := by omega
    have h2lists : ∀ x : Nat, h2.lists x = h.lists x := by
      intro x
      rw [hh2, mask_dicts_lists tmp.2 lr tmp.1 x, htmp,
        deepcopy_dicts_lists h cur x]
    have h2dicts : ∀ x : Nat, x < N → h2.dicts x = h.dicts x := by
      intro x hx
      have hge : ∀ a ∈ tmp.1, N ≤ a := by
        intro a ha
        rw [htmp] at ha
        exact Nat.le_trans hN (deepcopy_dicts_addrs_ge h cur a ha)
      rw [hh2, mask_dicts_dicts_lt tmp.2 lr tmp.1 N hge x hx, htmp]
      exact deepcopy_dicts_dicts_lt h cur x (by omega)
    cases hfi : find_index (fun a => dictEq lr (h2.readDict a)) tmp.1 with
    | none =>
      exact ⟨hNh2, fun x hx => ⟨h2lists x, h2dicts x hx⟩⟩
    | some i =>
      have hwnext : (h2.writeList pool (cur.eraseIdx i)).next = h2.next := rfl
      have hwlists : ∀ x : Nat, x < N →
          (h2.writeList pool (cur.eraseIdx i)).lists x = h2.lists x := by
        intro x hx
        simp only [PyHeap.writeList]
        exact if_neg (by omega)
      have hwdicts : ∀ x : Nat,
          (h2.writeList pool (cur.eraseIdx i)).dicts x = h2.dicts x :=
        fun x => rfl
      rcases ih (h2.writeList pool (cur.eraseIdx i)) pool (by omega) hpool
        with ⟨hnext4, hframe4⟩
      refine ⟨hnext4, fun x hx => ?_⟩
      rcases hframe4 x hx with ⟨hl4, hd4⟩
      constructor
      · rw [hl4, hwlists x hx, h2lists x]
      · rw [hd4, hwdicts x, h2dicts x hx]

/-- C10: `compare_rules` never mutates its arguments: the removal happens
on a fresh working copy of the remote list (line 273) and the masking on
fresh deep copies of its entries (line 277), so every object allocated
before the call — in particular the caller's local and remote rule list
objects and every rule dict they point to — is unchanged in the final
heap. -/
theorem compare_rules_st_frame (h : PyHeap) (local_addr remote_addr x : Nat)
    (hx : x < h.next) :
    (compare_rules_st h local_addr remote_addr).2.lists x = h.lists x ∧
    (compare_rules_st h local_addr remote_addr).2.dicts x = h.dicts x := by
  simp only [compare_rules_st, PyHeap.allocList]
  rcases compare_rules_go_st_frame h.next
      ((⟨h.next + 1, fun y => if y = h.next then
          some (h.readList remote_addr) else h.lists y, h.dicts⟩ :
        PyHeap).readList local_addr)
      ⟨h.next + 1, fun y => if y = h.next then
        some (h.readList remote_addr) else h.lists y, h.dicts⟩
      h.next (Nat.le_succ h.next) (Nat.le_refl h.next)
    with ⟨-, hframe⟩
  rcases hframe x hx with ⟨hl, hd⟩
  constructor
  · rw [hl]
    exact if_neg (by omega)
  · rw [hd]

/-- C10 witness: running the comparison on the concrete heap leaves the
shared rule dict at address 2 (and every pre-existing object) unchanged. -/
theorem compare_rules_st_frame_witness :
    (compare_rules_st demoHeap 0 1).2.lists 2 = demoHeap.lists 2 ∧
    (compare_rules_st demoHeap 0 1).2.dicts 2 = demoHeap.dicts 2 :=
  compare_rules_st_frame demoHeap 0 1 2 (by decide)

theorem map_eraseIdx_comm {α β : Type} (f : α → β) :
    ∀ (l : List α) (i : Nat), (l.map f).eraseIdx i = (l.eraseIdx i).map f := by
  intro l
  induction l with
  | nil => intro i; rfl
  | cons a rest ih =>
    intro i
    cases i with
    | zero => rfl
    | succ i1 =>
      show f a :: (rest.map f).eraseIdx i1 = f a :: (rest.eraseIdx i1).map f
      rw [ih i1]

theorem find_index_map {α β : Type} (p : β → Bool) (f : α → β) :
    ∀ as : List α, find_index p (as.map f) = find_index (fun a => p (f a)) as := by
  intro as
  induction as with
  | nil => rfl
  | cons a rest ih =>
    by_cases hp : p (f a) = true
    · simp [find_index, hp]
    · have hp' : p (f a) = false := by simpa using hp
      simp [find_index, hp', ih]

theorem deepcopy_dicts_shape (h : PyHeap) (as : List Nat) :
    (deepcopy_dicts h as).1 = List.range' h.next as.length ∧
    (deepcopy_dicts h as).2.next = h.next + as.length := by
  induction as generalizing h with
  | nil => exact ⟨rfl, rfl⟩
  | cons a rest ih =>
    rcases ih ⟨h.next + 1, h.lists, fun x => if x = h.next then
      some (h.readDict a) else h.dicts x⟩ with ⟨h1, h2⟩
    have h1' : (deepcopy_dicts ⟨h.next + 1, h.lists, fun x =>
        if x = h.next then some (h.readDict a) else h.dicts x⟩ rest).1 =
        List.range' (h.next + 1) rest.length := h1
    have h2' : (deepcopy_dicts ⟨h.next + 1, h.lists, fun x =>
        if x = h.next then some (h.readDict a) else h.dicts x⟩ rest).2.next =
        h.next + 1 + rest.length := h2
    simp only [deepcopy_dicts, PyHeap.allocDict, List.length_cons]
    refine ⟨?_, ?_⟩
    · rw [List.range'_succ, h1']
    · rw [h2']
      omega

theorem deepcopy_dicts_contents (h : PyHeap) (as : List Nat)
    (hwf : ∀ a ∈ as, a < h.next) :
    (deepcopy_dicts h as).1.map (deepcopy_dicts h as).2.readDict =
      as.map h.readDict := by
  induction as generalizing h with
  | nil => rfl
  | cons a rest ih =>
    simp only [deepcopy_dicts, PyHeap.allocDict, List.map_cons]
    have hwrest : ∀ a1 ∈ rest, a1 < (⟨h.next + 1, h.lists, fun x =>
        if x = h.next then some (h.readDict a) else h.dicts x⟩ : PyHeap).next := by
      intro a1 ha1
      show a1 < h.next + 1
      have := hwf a1 (by simp [ha1])
      omega
    have hhead : (deepcopy_dicts (⟨h.next + 1, h.lists, fun x =>
        if x = h.next then some (h.readDict a) else h.dicts x⟩ : PyHeap)
          rest).2.readDict h.next = h.readDict a := by
      have hd := deepcopy_dicts_dicts_lt (⟨h.next + 1, h.lists, fun x =>
        if x = h.next then some (h.readDict a) else h.dicts x⟩ : PyHeap)
        rest h.next (by show h.next < h.next + 1; omega)
      show ((deepcopy_dicts (⟨h.next + 1, h.lists, fun x =>
        if x = h.next then some (h.readDict a) else h.dicts x⟩ : PyHeap)
          rest).2.dicts h.next).getD [] = h.readDict a
      rw [hd]
      show (if h.next = h.next then some (h.readDict a) else
        h.dicts h.next).getD [] = h.readDict a
      rw [if_pos rfl]
      rfl
    have htail := ih (⟨h.next + 1, h.lists, fun x =>
        if x = h.next then some (h.readDict a) else h.dicts x⟩ : PyHeap) hwrest
    rw [hhead, htail]
    congr 1
    apply List.map_congr_left
    intro a1 ha1
    show ((if a1 = h.next then some (h.readDict a) else h.dicts a1).getD [])
      = (h.dicts a1).getD []
    rw [if_neg (by have := hwf a1 (by simp [ha1]); omega)]

theorem mask_dicts_not_mem (l : Rule) :
    ∀ (as : List Nat) (h : PyHeap) (x : Nat), x ∉ as →
      (mask_dicts h l as).dicts x = h.dicts x := by
  intro as
  induction as with
  | nil => intro h x _; rfl
  | cons a rest ih =>
    intro h x hx
    simp only [mask_dicts]
    rw [ih (h.writeDict a (mask_entry l (h.readDict a))) x
      (fun hmem => hx (by simp [hmem]))]
    simp only [PyHeap.writeDict]
    rw [if_neg (fun he => hx (by simp [he]))]

theorem mask_dicts_contents (l : Rule) :
    ∀ (as : List Nat) (h : PyHeap), as.Nodup →
      as.map (mask_dicts h l as).readDict =
        as.map (fun a => mask_entry l (h.readDict a)) := by
  intro as
  induction as with
  | nil => intro h _; rfl
  | cons a rest ih =>
    intro h hnd
    obtain ⟨hna, hndr⟩ := List.nodup_cons.mp hnd
    simp only [mask_dicts, List.map_cons]
    have hhead : (mask_dicts (h.writeDict a (mask_entry l (h.readDict a))) l
        rest).readDict a = mask_entry l (h.readDict a) := by
      show ((mask_dicts (h.writeDict a (mask_entry l (h.readDict a))) l
        rest).dicts a).getD [] = mask_entry l (h.readDict a)
      rw [mask_dicts_not_mem l rest _ a hna]
      show (if a = a then some (mask_entry l (h.readDict a)) else
        h.dicts a).getD [] = mask_entry l (h.readDict a)
      rw [if_pos rfl]
      rfl
    have htail := ih (h.writeDict a (mask_entry l (h.readDict a))) hndr
    rw [hhead, htail]
    congr 1
    apply List.map_congr_left
    intro a1 ha1
    have hne : a1 ≠ a := fun he => hna (he ▸ ha1)
    show mask_entry l (((if a1 = a then some (mask_entry l (h.readDict a))
      else h.dicts a1)).getD []) = mask_entry l ((h.dicts a1).getD [])
    rw [if_neg hne]

theorem compare_rules_go_st_correct (N : Nat) :
    ∀ (locals : List Nat) (h : PyHeap) (pool : Nat),
      N ≤ h.next → N ≤ pool →
      (∀ la ∈ locals, la < N) →
      (∀ a ∈ h.readList pool, a < N) →
      (compare_rules_go_st h locals pool).1 =
        compare_rules (locals.map h.readDict)
          ((h.readList pool).map h.readDict) := by
  intro locals
  induction locals with
  | nil =>
    intro h pool _ _ _ _
    cases hp : h.readList pool <;>
      simp [compare_rules_go_st, compare_rules, hp]
  | cons la rest ih =>
    intro h pool hN hpool hlocals hcurN
    simp only [compare_rules_go_st, List.map_cons, compare_rules]
    set lr := h.readDict la with hlr
    set cur := h.readList pool with hcur2
    set tmp := deepcopy_dicts h cur with htmp
    set h2 := mask_dicts tmp.2 lr tmp.1 with hh2
    have hshape1 : tmp.1 = List.range' h.next cur.length := by
      rw [htmp]
      exact (deepcopy_dicts_shape h cur).1
    have hnd : tmp.1.Nodup := by
      rw [hshape1]
      exact List.nodup_range' h.next cur.length
    have hcontents : tmp.1.map tmp.2.readDict = cur.map h.readDict := by
      rw [htmp]
      exact deepcopy_dicts_contents h cur
        (fun a ha => Nat.lt_of_lt_of_le (hcurN a ha) hN)
    have hmasked : tmp.1.map h2.readDict =
        (cur.map h.readDict).map (mask_entry lr) := by
      rw [hh2, mask_dicts_contents lr tmp.1 tmp.2 hnd]
      calc tmp.1.map (fun a => mask_entry lr (tmp.2.readDict a))
          = (tmp.1.map tmp.2.readDict).map (mask_entry lr) := by
            rw [List.map_map]
            rfl
        _ = (cur.map h.readDict).map (mask_entry lr) := by rw [hcontents]
    have hfind : find_index (fun a => dictEq lr (h2.readDict a)) tmp.1 =
        find_index (fun r => dictEq lr r)
          ((cur.map h.readDict).map (mask_entry lr)) := by
      rw [← hmasked, find_index_map]
    rw [← hfind]
    cases hfi : find_index (fun a => dictEq lr (h2.readDict a)) tmp.1 with
    | none => rfl
    | some i =>
      have hnext2 : N ≤ h2.next := by
        have h1le : h.next ≤ tmp.2.next := by
          rw [htmp]
          exact deepcopy_dicts_next_le h cur
        have h2eq : h2.next = tmp.2.next := by
          rw [hh2]
          exact mask_dicts_next tmp.2 lr tmp.1
        omega
      have hge : ∀ a ∈ tmp.1, N ≤ a := by
        intro a ha
        rw [htmp] at ha
        exact Nat.le_trans hN (deepcopy_dicts_addrs_ge h cur a ha)
      have hread3 : ∀ x : Nat, x < N →
          (h2.writeList pool (cur.eraseIdx i)).readDict x = h.readDict x := by
        intro x hx
        show ((h2.writeList pool (cur.eraseIdx i)).dicts x).getD [] =
          (h.dicts x).getD []
        have e1 : (h2.writeList pool (cur.eraseIdx i)).dicts x = h2.dicts x :=
          rfl
        have e2 : h2.dicts x = tmp.2.dicts x := by
          rw [hh2]
          exact mask_dicts_dicts_lt tmp.2 lr tmp.1 N hge x hx
        have e3 : tmp.2.dicts x = h.dicts x := by
          rw [htmp]
          exact deepcopy_dicts_dicts_lt h cur x (by omega)
        rw [e1, e2, e3]
      have hreadpool3 : (h2.writeList pool (cur.eraseIdx i)).readList pool =
          cur.eraseIdx i := by
        show ((if pool = pool then some (cur.eraseIdx i) else
          h2.lists pool).getD []) = cur.eraseIdx i
        rw [if_pos rfl]
        rfl
      have hstep := ih (h2.writeList pool (cur.eraseIdx i)) pool
        (by show N ≤ h2.next; exact hnext2) hpool
        (fun la1 h1 => hlocals la1 (by simp [h1]))
        (by
          rw [hreadpool3]
          intro a ha
          exact hcurN a (List.mem_of_mem_eraseIdx ha))
      rw [hstep, hreadpool3]
      have hmapl : rest.map (h2.writeList pool (cur.eraseIdx i)).readDict =
          rest.map h.readDict :=
        List.map_congr_left (fun la1 h1 =>
          hread3 la1 (hlocals la1 (by simp [h1])))
      have hmapr : (cur.eraseIdx i).map
            (h2.writeList pool (cur.eraseIdx i)).readDict =
          (cur.map h.readDict).eraseIdx i := by
        rw [List.map_congr_left (fun a ha =>
          hread3 a (hcurN a (List.mem_of_mem_eraseIdx ha)))]
        exact (map_eraseIdx_comm h.readDict cur i).symm
      rw [hmapl, hmapr]

/-- The heap run of `compare_rules` computes the same verdict as the pure
function on the pointed-to rule lists (for any well-formed heap whose live
addresses lie below the allocation bound). -/
theorem compare_rules_st_correct (h : PyHeap) (local_addr remote_addr : Nat)
    (hla : local_addr < h.next)
    (hwfL : ∀ a ∈ h.readList local_addr, a < h.next)
    (hwfR : ∀ a ∈ h.readList remote_addr, a < h.next) :
    (compare_rules_st h local_addr remote_addr).1 =
      compare_rules ((h.readList local_addr).map h.readDict)
        ((h.readList remote_addr).map h.readDict) := by
  simp only [compare_rules_st, PyHeap.allocList]
  have hrl : (⟨h.next + 1, fun y => if y = h.next then
      some (h.readList remote_addr) else h.lists y, h.dicts⟩ : PyHeap).readList
      local_addr = h.readList local_addr := by
    show ((if local_addr = h.next then some (h.readList remote_addr) else
      h.lists local_addr).getD []) = (h.lists local_addr).getD []
    rw [if_neg (by omega)]
  have hrp : (⟨h.next + 1, fun y => if y = h.next then
      some (h.readList remote_addr) else h.lists y, h.dicts⟩ : PyHeap).readList
      h.next = h.readList remote_addr := by
    show ((if h.next = h.next then some (h.readList remote_addr) else
      h.lists h.next).getD []) = h.readList remote_addr
    rw [if_pos rfl]
    rfl
  have hc := compare_rules_go_st_correct h.next
    ((⟨h.next + 1, fun y => if y = h.next then
      some (h.readList remote_addr) else h.lists y, h.dicts⟩ : PyHeap).readList
      local_addr)
    (⟨h.next + 1, fun y => if y = h.next then
      some (h.readList remote_addr) else h.lists y, h.dicts⟩ : PyHeap)
    h.next
    (by show h.next ≤ h.next + 1; omega) (Nat.le_refl h.next)
    (by rw [hrl]; exact hwfL)
    (by rw [hrp]; exact hwfR)
  have hmap : ∀ l : List Nat,
      l.map (⟨h.next + 1, fun y => if y = h.next then
        some (h.readList remote_addr) else h.lists y, h.dicts⟩ :
          PyHeap).readDict = l.map h.readDict :=
    fun l => List.map_congr_left (fun a _ => rfl)
  rw [hc, hrl, hrp, hmap, hmap]
